import Mathlib

/-!
Verification of the local-backend convergence engine of a compose CLI
(`local/convergence.go`).  The Go source is shallowly embedded below:

* pure helpers (`getScale`, `nextContainerNumber`, `setDependentLifecycle`)
  become Lean functions over the same data;
* the loop bodies of `ensureService`, `recreateContainer`, `runContainer`
  and `isServiceHealthy` become functions from explicit inputs (the listed
  containers, the outcomes of the runtime API calls) to the sequence of
  runtime calls they issue together with their result;
* Go `map[string]string` label sets become association lists looked up with
  the empty-string default of Go map indexing, and `strconv.Atoi` is modelled
  including its sign handling and 64-bit range check.

Runtime API calls (list, inspect, create, start, stop, rename, delete,
network connect) are external collaborators: their outcomes are inputs to
the embedding (an `Env` record), and the calls the code makes are recorded
in a trace.  Progress events are output-only and are not modelled.
-/

namespace Convergence

/-- Go `strconv.Atoi`: an optional leading `+` or `-` followed by at least
one ASCII digit, the value required to fit in a 64-bit signed integer
(`strconv.Atoi` is `ParseInt(s, 10, 0)` with `int` 64 bits wide).
Any other string is a parsing error. -/
def digitsToNat : List Char → Option Nat
  | [] => none
  | cs =>
    if cs.all Char.isDigit then
      some (cs.foldl (fun acc c => acc * 10 + (c.toNat - '0'.toNat)) 0)
    else none

/-- Go `strconv.Atoi` (see `digitsToNat`); the error message stands in for
Go's `*strconv.NumError`. -/
def goAtoi (s : String) : Except String Int :=
  let cs := s.data
  let signed : Bool × List Char :=
    match cs with
    | '-' :: rest => (true, rest)
    | '+' :: rest => (false, rest)
    | _ => (false, cs)
  match digitsToNat signed.2 with
  | none => .error ("strconv.Atoi: parsing " ++ s ++ ": invalid syntax")
  | some n =>
    let v : Int := if signed.1 then -(n : Int) else (n : Int)
    if v < -(2 ^ 63) ∨ (2 ^ 63 : Int) ≤ v then
      .error ("strconv.Atoi: parsing " ++ s ++ ": value out of range")
    else .ok v

/-- The label keys used by the backend.  Their definitions live outside the
given sources (a labels file of the same package); the exact strings are
immaterial to every property proved here, only their distinctness as keys
matters. -/
def containerNumberLabel : String := "com.docker.compose.container-number"

/-- Label key holding the project name (see `containerNumberLabel`). -/
def projectLabel : String := "com.docker.compose.project"

/-- Label key holding the service name (see `containerNumberLabel`). -/
def serviceLabel : String := "com.docker.compose.service"

/-- Label key holding the configuration fingerprint (see
`containerNumberLabel`). -/
def configHashLabel : String := "com.docker.compose.config-hash"

/-- Constant `extLifecycle  = "x-lifecycle"` from the source. -/
def extLifecycle : String := "x-lifecycle"

/-- Constant `forceRecreate = "force_recreate"` from the source. -/
def forceRecreate : String := "force_recreate"

/-- A runtime container summary (`moby.Container`): the fields the source
reads.  `name` stands for the current container name that
`getContainerName` (defined outside the given sources) extracts from the
summary's `Names` field. -/
structure Container where
  ID : String
  labels : List (String × String)
  state : String
  name : String
deriving DecidableEq, Repr

/-- Go map indexing `c.Labels[key]`: the value of the first binding of
`key`, or the zero value `""` when the key is absent. -/
def labelOf (c : Container) (key : String) : String :=
  match c.labels.find? (fun p => p.1 == key) with
  | some p => p.2
  | none => ""

/-- Record `types.DeployConfig`: the one field the source reads
(`Deploy.Replicas *uint64`). -/
structure DeployConfig where
  replicas : Option Int
deriving DecidableEq, Repr

/-- Record `types.ServiceConfig`: the fields the source reads.  `extensions` is the
`Extensions map[string]interface{}` restricted to string values (the only
values this code ever stores or compares); `dependencies` stands for the
names `GetDependencies` returns; `networks` for the keys of `Networks`. -/
structure ServiceConfig where
  name : String
  scale : Int
  deploy : Option DeployConfig
  extensions : List (String × String)
  dependencies : List String
  networks : List String
deriving DecidableEq, Repr

/-- Lookup in an extensions map: `some v` when the key is bound, `none`
when absent (Go: a `nil` interface, which compares unequal to any string). -/
def extLookup (m : List (String × String)) (key : String) : Option String :=
  match m.find? (fun p => p.1 == key) with
  | some p => some p.2
  | none => none

/-- Map update `m[k] = v` on the association-list model: overwrites the
binding of `k` or appends a fresh one (covering the source's
`if s.Extensions == nil` initialisation of an empty map). -/
def extSet (m : List (String × String)) (key v : String) : List (String × String) :=
  if m.any (fun p => p.1 == key) then
    m.map (fun p => if p.1 == key then (key, v) else p)
  else m ++ [(key, v)]

/-- Record `types.Project`: the fields the source reads. -/
structure Project where
  name : String
  services : List ServiceConfig
deriving DecidableEq, Repr

/-- Function `getScale`: the deploy-replicas override when both pointers are
non-nil, else the explicit scale when non-zero, else 1. -/
def getScale (config : ServiceConfig) : Int :=
  match config.deploy.bind DeployConfig.replicas with
  | some r => r
  | none => if config.scale ≠ 0 then config.scale else 1

/-- The loop of `nextContainerNumber`, carrying the running maximum `max`
(initially 0) and returning early on the first unparsable
instance-number label. -/
def nextContainerNumberAux (max : Int) : List Container → Except String Int
  | [] => .ok (max + 1)
  | c :: rest =>
    match goAtoi (labelOf c containerNumberLabel) with
    | .error e => .error e
    | .ok n => nextContainerNumberAux (if n > max then n else max) rest

/-- Function `nextContainerNumber`: one greater than the running maximum of the
parsed instance-number labels (0 when none exceeds 0), or the first
parsing error. -/
def nextContainerNumber (containers : List Container) : Except String Int :=
  nextContainerNumberAux 0 containers

/-- Helper `contains` of the package, defined outside the given sources:
string membership in a slice. -/
def slcontains (l : List String) (v : String) : Bool :=
  l.any (fun x => x == v)

/-- Function `setDependentLifecycle`: for every service of the project whose
dependency list contains `service`, set its `x-lifecycle` extension to
`strategy` (initialising the extensions map when nil); every other service
is written back unchanged. -/
def setDependentLifecycle (project : Project) (service : String) (strategy : String) :
    Project :=
  { project with
    services := project.services.map (fun s =>
      if slcontains s.dependencies service then
        { s with extensions := extSet s.extensions extLifecycle strategy }
      else s) }

/-- The health sub-record of an inspected container
(`container.State.Health`): the one field the source reads. -/
structure HealthInfo where
  status : String
deriving DecidableEq, Repr

/-- The state sub-record of an inspected container (`container.State`);
`health = none` models a nil `Health` pointer. -/
structure InspectedState where
  health : Option HealthInfo
deriving DecidableEq, Repr

/-- An inspected container (`moby.ContainerJSON`) as `isServiceHealthy`
reads it; `state = none` models a nil `State` pointer. -/
structure InspectedContainer where
  state : Option InspectedState
deriving DecidableEq, Repr

/-- The loop of `isServiceHealthy` over the inspected containers of the
dependency `service` (the surrounding list and inspect API calls are the
external runtime; their successful results are the input here).  A nil
state or nil health is an immediate error; a `starting` or `unhealthy`
status returns not-yet-healthy; otherwise the loop continues, and an
exhausted list is healthy. -/
def isServiceHealthy (service : String) : List InspectedContainer → Except String Bool
  | [] => .ok true
  | c :: rest =>
    match c.state with
    | none => .error ("container for service \x22" ++ service ++ "\x22 has no healthcheck configured")
    | some st =>
      match st.health with
      | none => .error ("container for service \x22" ++ service ++ "\x22 has no healthcheck configured")
      | some h =>
        if h.status = "starting" then .ok false
        else if h.status = "unhealthy" then .ok false
        else isServiceHealthy service rest

/-- Go string slicing `s[:n]`: the first `n` bytes when `n ≤ len(s)`, a
panic (modelled as `none`) otherwise.  Container IDs are ASCII hex, so
character count and byte count coincide. -/
def goSliceTo (s : String) (n : Nat) : Option String :=
  if n ≤ s.data.length then some (String.mk (s.data.take n)) else none

/-- Function `getContainerName`, defined outside the given sources: the current name
of a container summary (its `Names[0]` with the leading slash stripped),
modelled as the opaque `name` field of the summary. -/
def getContainerName (c : Container) : String := c.name

/-- The temporary name `fmt.Sprintf("%s_%s", container.ID[:12], name)` of
`recreateContainer`; `none` when the slice `ID[:12]` panics. -/
def tmpNameOf (c : Container) : Option String :=
  (goSliceTo c.ID 12).map (fun pre => pre ++ "_" ++ getContainerName c)

/-- One runtime API mutation, as recorded in a trace in the order the code
issues the calls. -/
inductive RuntimeOp where
  | stop (id : String)
  | rename (id : String) (newName : String)
  | create (name : String)
  | connect (id : String) (serviceAlias network : String)
  | start (id : String)
  | delete (id : String)
deriving DecidableEq, Repr

/-- Outcomes fixed by the external collaborators for one recreation: what
each runtime API call would return when issued, plus the result of the
(excluded) `getContainerCreateOptions` helper.  `createRes` carries the new
container's id on success. -/
structure Env where
  stopRes : Except String Unit
  renameRes : Except String Unit
  optsRes : Except String Unit
  createRes : Except String String
  connectRes : String → Except String Unit
  startRes : Except String Unit
  deleteRes : Except String Unit

/-- The network-attachment loop of `runContainer`: one `NetworkConnect`
call per declared network (network name `project_net`, alias the service
name), returning on the first error. -/
def connectNetworks (env : Env) (projName svcName id : String) :
    List String → List RuntimeOp × Except String Unit
  | [] => ([], .ok ())
  | net :: rest =>
    let n := projName ++ "_" ++ net
    match env.connectRes net with
    | .error e => ([RuntimeOp.connect id svcName n], .error e)
    | .ok _ =>
      (RuntimeOp.connect id svcName n :: (connectNetworks env projName svcName id rest).1,
       (connectNetworks env projName svcName id rest).2)

/-- Function `runContainer`: derive creation options (external, may fail before any
call), create the container, connect it to every declared network, then
start it; the first error aborts.  Returns the issued calls and the new
id on success. -/
def runContainer (env : Env) (project : Project) (service : ServiceConfig)
    (name : String) : List RuntimeOp × Except String String :=
  match env.optsRes with
  | .error e => ([], .error e)
  | .ok _ =>
    match env.createRes with
    | .error e => ([RuntimeOp.create name], .error e)
    | .ok id =>
      match (connectNetworks env project.name service.name id service.networks).2 with
      | .error e =>
        (RuntimeOp.create name :: (connectNetworks env project.name service.name id service.networks).1,
         .error e)
      | .ok _ =>
        match env.startRes with
        | .error e =>
          (RuntimeOp.create name ::
            (connectNetworks env project.name service.name id service.networks).1
            ++ [RuntimeOp.start id], .error e)
        | .ok _ =>
          (RuntimeOp.create name ::
            (connectNetworks env project.name service.name id service.networks).1
            ++ [RuntimeOp.start id], .ok id)

/-- The result of a recreation: a Go panic (out-of-bounds slice), an
error return, or success. -/
inductive Outcome where
  | panic
  | err (e : String)
  | ok
deriving DecidableEq, Repr

/-- Function `recreateContainer`: stop the old container; compute the temporary
name from `ID[:12]` and rename the old container to it; parse the old
instance number; run a replacement under the old canonical name; only
then delete the old container.  Every error returns immediately with the
calls issued so far.  Progress events and the final
`setDependentLifecycle` call (a pure project mutation, modelled
separately) are not part of the trace. -/
def recreateContainer (env : Env) (project : Project) (service : ServiceConfig)
    (container : Container) : List RuntimeOp × Outcome :=
  match env.stopRes with
  | .error e => ([RuntimeOp.stop container.ID], .err e)
  | .ok _ =>
    match tmpNameOf container with
    | none => ([RuntimeOp.stop container.ID], .panic)
    | some tmpName =>
      let tr1 := [RuntimeOp.stop container.ID, RuntimeOp.rename container.ID tmpName]
      match env.renameRes with
      | .error e => (tr1, .err e)
      | .ok _ =>
        match goAtoi (labelOf container containerNumberLabel) with
        | .error e => (tr1, .err e)
        | .ok _number =>
          match (runContainer env project service (getContainerName container)).2 with
          | .error e =>
            (tr1 ++ (runContainer env project service (getContainerName container)).1, .err e)
          | .ok _ =>
            match env.deleteRes with
            | .error e =>
              (tr1 ++ (runContainer env project service (getContainerName container)).1
                ++ [RuntimeOp.delete container.ID], .err e)
            | .ok _ =>
              (tr1 ++ (runContainer env project service (getContainerName container)).1
                ++ [RuntimeOp.delete container.ID], .ok)

/-- One work item handed to the error group by `ensureService`: a creation
(with its assigned name and instance number), a stop-then-delete of an
excess container, a recreation, or a restart. -/
inductive Dispatch where
  | create (name : String) (number : Int)
  | stopDelete (c : Container)
  | recreate (c : Container)
  | restart (c : Container)
deriving DecidableEq, Repr

/-- The drift/restart loop of `ensureService` over the surviving actual
containers, given the freshly computed fingerprint `expected`: recreate on
a fingerprint mismatch or a `force_recreate` lifecycle extension; skip a
running container; restart anything else. -/
def driftOps (service : ServiceConfig) (expected : String) :
    List Container → List Dispatch
  | [] => []
  | c :: rest =>
    (if labelOf c configHashLabel ≠ expected
        ∨ extLookup service.extensions extLifecycle = some forceRecreate then
      [Dispatch.recreate c]
    else if c.state = "running" then []
    else [Dispatch.restart c]) ++ driftOps service expected rest

/-- The container name `fmt.Sprintf("%s_%s_%d", project, service, number)`
assigned at creation. -/
def containerName (projName svcName : String) (number : Int) : String :=
  projName ++ "_" ++ svcName ++ "_" ++ toString number

/-- The dispatch phase of `ensureService` after the dependency wait and
the container listing (both external; `actual` is the listing's result):
scale up with consecutive fresh numbers, or stop-then-delete the tail
beyond the desired scale and keep the prefix, then hash the spec and run
the drift/restart loop over the survivors.  The work items are listed in
the order the code hands them to the error group; their concurrent
execution is outside this model.  An unparsable instance-number label or a
hash failure aborts with that error.  (Go would panic on a negative scale
when slicing `actual[:scale]`; every property below assumes
`0 ≤ getScale service`, which holds for any spec a parser can produce.) -/
def ensureServiceDispatch (hash : ServiceConfig → Except String String)
    (project : Project) (service : ServiceConfig) (actual : List Container) :
    Except String (List Dispatch) :=
  let scale := getScale service
  let ups : Except String (List Dispatch) :=
    if (actual.length : Int) < scale then
      match nextContainerNumber actual with
      | .error e => .error e
      | .ok next =>
        let missing := (scale - (actual.length : Int)).toNat
        .ok ((List.range missing).map (fun i =>
          Dispatch.create (containerName project.name service.name (next + i)) (next + i)))
    else .ok []
  match ups with
  | .error e => .error e
  | .ok upOps =>
    let downOps : List Dispatch :=
      if scale < (actual.length : Int) then
        (actual.drop scale.toNat).map Dispatch.stopDelete
      else []
    let actual2 : List Container :=
      if scale < (actual.length : Int) then actual.take scale.toNat else actual
    match hash service with
    | .error e => .error e
    | .ok expected => .ok (upOps ++ downOps ++ driftOps service expected actual2)

/-- The spec's words (for comparison with `goAtoi`, which is what the code
uses): a string denoting a valid non-negative integer, i.e. a nonempty run
of ASCII digits with no sign. -/
def isValidNonNegIntString (s : String) : Bool :=
  !s.data.isEmpty && s.data.all Char.isDigit

/-- An inspected container has a configured health check: both the state
pointer and its health pointer are non-nil. -/
def hasHealthcheck (c : InspectedContainer) : Bool :=
  match c.state with
  | some st => st.health.isSome
  | none => false

/-- An inspected container reports a `starting` or `unhealthy` status. -/
def pendingHealth (c : InspectedContainer) : Bool :=
  match c.state with
  | some st =>
    match st.health with
    | some h => h.status == "starting" || h.status == "unhealthy"
    | none => false
  | none => false

/-- An inspected container the `isServiceHealthy` loop passes over:
health check configured and neither `starting` nor `unhealthy`. -/
def passesHealth (c : InspectedContainer) : Bool :=
  hasHealthcheck c && !pendingHealth c

/-- The instance number a container's label parses to (0 on a parse error;
only used where parsing succeeds). -/
def parsedNumber (c : Container) : Int :=
  match goAtoi (labelOf c containerNumberLabel) with
  | .ok n => n
  | .error _ => 0

/-- The maximum instance number observed across a container list (0 when
the list is empty), matching the running maximum of
`nextContainerNumberAux` when every label parses to a non-negative
number. -/
def maxObserved (cs : List Container) : Int :=
  cs.foldl (fun m c => max m (parsedNumber c)) 0

/-- The surviving actual set after the scale-down step of
`ensureService`: the listing's prefix of length `scale` when the listing
is longer, the whole listing otherwise. -/
def survivingActual (service : ServiceConfig) (actual : List Container) :
    List Container :=
  if getScale service < (actual.length : Int) then
    actual.take (getScale service).toNat
  else actual

/-- Fixture: a running container with a given id, instance-number label
and fingerprint label `"H"`. -/
def fixC (id num : String) : Container :=
  ⟨id, [(containerNumberLabel, num), (configHashLabel, "H")], "running", "nm"⟩

/-- Fixture: a one-service project. -/
def fixSvc : ServiceConfig := ⟨"web", 0, none, [], [], ["default"]⟩

/-- Fixture: the project holding `fixSvc`. -/
def fixProj : Project := ⟨"p", [fixSvc]⟩

/-- Fixture: an environment where every runtime call succeeds. -/
def fixEnvOk : Env := ⟨.ok (), .ok (), .ok (), .ok "newid", fun _ => .ok (), .ok (), .ok ()⟩

/-- Fixture: an environment where the container-create call fails. -/
def fixEnvCreateFail : Env :=
  ⟨.ok (), .ok (), .ok (), .error "boom", fun _ => .ok (), .ok (), .ok ()⟩

/-- Fixture: a service depending on service `a`. -/
def fixSvcB : ServiceConfig := ⟨"b", 0, none, [], ["a"], []⟩

/-- Fixture: a service with no dependencies. -/
def fixSvcD : ServiceConfig := ⟨"d", 0, none, [], [], []⟩

/-- Fixture: a project holding `fixSvcB` and `fixSvcD`. -/
def fixProjBD : Project := ⟨"p", [fixSvcB, fixSvcD]⟩

/-- Fixture: a service with scale 3. -/
def fixSvc3 : ServiceConfig := ⟨"web", 3, none, [], [], []⟩

/-- Fixture: a running container whose fingerprint label is stale. -/
def fixCStale : Container :=
  ⟨"bbbbbbbbbbbb", [(containerNumberLabel, "2"), (configHashLabel, "OLD")], "running", "nm"⟩

/-- C10: if the runtime listing for a dependency service returns an empty
container set, `isServiceHealthy` returns healthy (`true`) with no error,
so the health gate opens immediately for a dependency with zero
containers. -/
theorem isServiceHealthy_empty_is_healthy (service : String) :
    isServiceHealthy service [] = .ok true := rfl

/-- C9: the temporary name of a recreation slices the first 12 bytes of
the old container's id, so the slice is defined exactly when the id has at
least 12 bytes; on a shorter id the recreation panics (out-of-bounds
slice) as soon as the stop call succeeds, and with at least 12 bytes it
never panics. -/
theorem recreateContainer_id_slice_safety (env : Env) (project : Project)
    (service : ServiceConfig) (c : Container) :
    ((tmpNameOf c).isSome ↔ 12 ≤ c.ID.length) ∧
    (env.stopRes = .ok () → c.ID.length < 12 →
      (recreateContainer env project service c).2 = Outcome.panic) ∧
    (12 ≤ c.ID.length → (recreateContainer env project service c).2 ≠ Outcome.panic) := by
  refine ⟨?_, ?_, ?_⟩
  · unfold tmpNameOf goSliceTo
    by_cases h : 12 ≤ c.ID.data.length
    · rw [if_pos h]; exact iff_of_true rfl h
    · rw [if_neg h]; exact iff_of_false (by simp) h
  · intro hstop hlt
    have hnone : tmpNameOf c = none := by
      have h' : ¬ 12 ≤ c.ID.data.length := Nat.not_le.mpr hlt
      unfold tmpNameOf goSliceTo
      rw [if_neg h']
      rfl
    simp [recreateContainer, hstop, hnone]
  · intro h12
    obtain ⟨t, ht⟩ : ∃ t, tmpNameOf c = some t := by
      have h' : 12 ≤ c.ID.data.length := h12
      unfold tmpNameOf goSliceTo
      rw [if_pos h']
      exact ⟨_, rfl⟩
    cases hs : env.stopRes with
    | error e => simp [recreateContainer, hs]
    | ok u =>
      cases hr : env.renameRes with
      | error e => simp [recreateContainer, hs, ht, hr]
      | ok u2 =>
        cases ha : goAtoi (labelOf c containerNumberLabel) with
        | error e => simp [recreateContainer, hs, ht, hr, ha]
        | ok n =>
          cases hrc : (runContainer env project service (getContainerName c)).2 with
          | error e => simp [recreateContainer, hs, ht, hr, ha, hrc]
          | ok id =>
            cases hd : env.deleteRes with
            | error e => simp [recreateContainer, hs, ht, hr, ha, hrc, hd]
            | ok u3 => simp [recreateContainer, hs, ht, hr, ha, hrc, hd]

/-- Witness for C9: a 5-byte id panics, a 12-byte id does not. -/
theorem recreateContainer_id_slice_safety_witness :
    (recreateContainer fixEnvOk fixProj fixSvc (fixC "short" "1")).2 = Outcome.panic ∧
    (recreateContainer fixEnvOk fixProj fixSvc (fixC "aaaaaaaaaaaa" "1")).2 ≠ Outcome.panic := by
  constructor
  · exact (recreateContainer_id_slice_safety fixEnvOk fixProj fixSvc
      (fixC "short" "1")).2.1 rfl (by decide)
  · exact (recreateContainer_id_slice_safety fixEnvOk fixProj fixSvc
      (fixC "aaaaaaaaaaaa" "1")).2.2 (by decide)

/-- C5 counterexample: the instance-number label `"-3"` is not a valid
non-negative integer, yet `nextContainerNumber` does not fail on it —
Go's `strconv.Atoi` accepts signed integers — so "fails iff some label is
not a valid non-negative integer" is false at this input. -/
theorem nextContainerNumber_negative_label_counterexample :
    isValidNonNegIntString (labelOf (fixC "a" "-3") containerNumberLabel) = false ∧
    nextContainerNumber [fixC "a" "-3"] = .ok 1 := by
  constructor
  · rfl
  · rfl

/-- The early-return loop of `nextContainerNumber` fails iff the label of
some listed container fails `strconv.Atoi` parsing, whatever the running
maximum. -/
theorem nextContainerNumberAux_error_iff (m : Int) (cs : List Container) :
    (∃ e, nextContainerNumberAux m cs = .error e) ↔
    ∃ c ∈ cs, ∃ e, goAtoi (labelOf c containerNumberLabel) = .error e := by
  induction cs generalizing m with
  | nil => simp [nextContainerNumberAux]
  | cons c rest ih =>
    cases ha : goAtoi (labelOf c containerNumberLabel) with
    | error e => simp [nextContainerNumberAux, ha]
    | ok n => simp [nextContainerNumberAux, ha, ih]

/-- C5 amended: `nextContainerNumber` fails with a parsing error if and
only if some container in the input carries an instance-number label that
Go's `strconv.Atoi` rejects — i.e. a label that is not an optionally
signed decimal integer fitting a 64-bit int.  (A negative label such as
`"-3"` parses, so it does not cause a failure.) -/
theorem nextContainerNumber_error_iff_atoi_error (cs : List Container) :
    (∃ e, nextContainerNumber cs = .error e) ↔
    ∃ c ∈ cs, ∃ e, goAtoi (labelOf c containerNumberLabel) = .error e :=
  nextContainerNumberAux_error_iff 0 cs

/-- C4 counterexample: with a `starting` container listed before a
container with no configured health check, `isServiceHealthy` returns
not-yet-healthy rather than the explicit error the claim requires for any
missing health check — the loop returns before reaching the second
container. -/
theorem isServiceHealthy_missing_check_counterexample :
    hasHealthcheck (⟨none⟩ : InspectedContainer) = false ∧
    isServiceHealthy "db"
      [⟨some ⟨some ⟨"starting"⟩⟩⟩, (⟨none⟩ : InspectedContainer)] = .ok false :=
  ⟨rfl, rfl⟩

/-- C4 amended: the gate scans containers in listing order and its result
is decided by the first container that does not pass (pass = health check
configured and status neither `starting` nor `unhealthy`): an error iff
that first non-passing container lacks a configured health check,
not-yet-healthy iff it has one with a `starting` or `unhealthy` status,
and healthy iff every container passes. -/
theorem isServiceHealthy_first_offender_decides (s : String)
    (cs : List InspectedContainer) :
    (isServiceHealthy s cs = .ok true ↔ ∀ c ∈ cs, passesHealth c = true) ∧
    ((∃ e, isServiceHealthy s cs = .error e) ↔
      ∃ c, (cs.dropWhile passesHealth).head? = some c ∧ hasHealthcheck c = false) ∧
    (isServiceHealthy s cs = .ok false ↔
      ∃ c, (cs.dropWhile passesHealth).head? = some c ∧ hasHealthcheck c = true ∧
        pendingHealth c = true) := by
  induction cs with
  | nil =>
    refine ⟨by simp [isServiceHealthy], ?_, ?_⟩ <;> simp [isServiceHealthy]
  | cons c rest ih =>
    obtain ⟨hok, herr, hfalse⟩ := ih
    obtain ⟨st⟩ := c
    cases st with
    | none =>
      refine ⟨?_, ?_, ?_⟩ <;>
        simp [isServiceHealthy, List.dropWhile_cons, passesHealth, hasHealthcheck,
          pendingHealth]
    | some stv =>
      obtain ⟨hl⟩ := stv
      cases hl with
      | none =>
        refine ⟨?_, ?_, ?_⟩ <;>
          simp [isServiceHealthy, List.dropWhile_cons, passesHealth, hasHealthcheck,
            pendingHealth]
      | some hi =>
        obtain ⟨status⟩ := hi
        by_cases h1 : status = "starting"
        · subst h1
          refine ⟨?_, ?_, ?_⟩ <;>
            simp [isServiceHealthy, List.dropWhile_cons, passesHealth, hasHealthcheck,
              pendingHealth]
        · by_cases h2 : status = "unhealthy"
          · subst h2
            refine ⟨?_, ?_, ?_⟩ <;>
              simp [isServiceHealthy, List.dropWhile_cons, passesHealth, hasHealthcheck,
                pendingHealth, h1]
          · refine ⟨?_, ?_, ?_⟩ <;>
              simp [isServiceHealthy, List.dropWhile_cons, passesHealth, hasHealthcheck,
                pendingHealth, h1, h2, hok, herr, hfalse]

/-- The overwrite pass of `extSet` finds the rewritten binding when the
key was present. -/
theorem find?_extSet_map_self (m : List (String × String)) (k v : String)
    (h : m.any (fun p => p.1 == k) = true) :
    (m.map (fun p => if p.1 == k then (k, v) else p)).find? (fun p => p.1 == k)
      = some (k, v) := by
  induction m with
  | nil => simp at h
  | cons p rest ih =>
    rw [List.map_cons]
    by_cases hp : (p.1 == k) = true
    · rw [if_pos hp, @List.find?_cons_of_pos _ (fun x => x.1 == k) (k, v) _ (by simp)]
    · have h' : rest.any (fun p => p.1 == k) = true := by
        simpa [List.any_cons, hp] using h
      rw [if_neg hp, @List.find?_cons_of_neg _ (fun x => x.1 == k) p _ hp, ih h']

/-- Appending a fresh binding is found when the key was absent. -/
theorem find?_append_single_self (m : List (String × String)) (k v : String)
    (h : m.any (fun p => p.1 == k) = false) :
    (m ++ [(k, v)]).find? (fun p => p.1 == k) = some (k, v) := by
  induction m with
  | nil => rw [List.nil_append, @List.find?_cons_of_pos _ (fun x => x.1 == k) (k, v) _ (by simp)]
  | cons p rest ih =>
    have hp : (p.1 == k) = false := by
      by_contra hc
      simp [List.any_cons, eq_true_of_ne_false hc] at h
    have h' : rest.any (fun p => p.1 == k) = false := by
      simpa [List.any_cons, hp] using h
    rw [List.cons_append, @List.find?_cons_of_neg _ (fun x => x.1 == k) p _ (by simp [hp]), ih h']

/-- The overwrite pass of `extSet` leaves lookups of every other key
unchanged. -/
theorem find?_extSet_map_ne (m : List (String × String)) (k v q : String)
    (hqk : q ≠ k) :
    (m.map (fun p => if p.1 == k then (k, v) else p)).find? (fun p => p.1 == q)
      = m.find? (fun p => p.1 == q) := by
  induction m with
  | nil => rfl
  | cons p rest ih =>
    rw [List.map_cons]
    by_cases hp : (p.1 == k) = true
    · have hpk : p.1 = k := eq_of_beq hp
      have hkq : ¬ (((k, v) : String × String).1 == q) = true := by
        simp [hqk.symm]
      have hpq : ¬ (p.1 == q) = true := by
        rw [hpk]; simpa using hqk.symm
      rw [if_pos hp, @List.find?_cons_of_neg _ (fun x => x.1 == q) (k, v) _ hkq,
        @List.find?_cons_of_neg _ (fun x => x.1 == q) p _ hpq, ih]
    · rw [if_neg hp]
      by_cases hq : (p.1 == q) = true
      · rw [@List.find?_cons_of_pos _ (fun x => x.1 == q) p _ hq,
          @List.find?_cons_of_pos _ (fun x => x.1 == q) p _ hq]
      · rw [@List.find?_cons_of_neg _ (fun x => x.1 == q) p _ hq,
          @List.find?_cons_of_neg _ (fun x => x.1 == q) p _ hq, ih]

/-- Appending a fresh binding leaves lookups of every other key
unchanged. -/
theorem find?_append_single_ne (m : List (String × String)) (k v q : String)
    (hqk : q ≠ k) :
    (m ++ [(k, v)]).find? (fun p => p.1 == q) = m.find? (fun p => p.1 == q) := by
  induction m with
  | nil =>
    rw [List.nil_append,
      @List.find?_cons_of_neg _ (fun x => x.1 == q) (k, v) _ (by simp [hqk.symm]),
      List.find?_nil]
  | cons p rest ih =>
    rw [List.cons_append]
    by_cases hq : (p.1 == q) = true
    · rw [@List.find?_cons_of_pos _ (fun x => x.1 == q) p _ hq,
        @List.find?_cons_of_pos _ (fun x => x.1 == q) p _ hq]
    · rw [@List.find?_cons_of_neg _ (fun x => x.1 == q) p _ hq,
        @List.find?_cons_of_neg _ (fun x => x.1 == q) p _ hq, ih]

/-- Setting a key in an extensions map makes it look up to the new
value. -/
theorem extLookup_extSet_self (m : List (String × String)) (k v : String) :
    extLookup (extSet m k v) k = some v := by
  unfold extSet
  by_cases h : m.any (fun p => p.1 == k) = true
  · rw [if_pos h]
    unfold extLookup
    rw [find?_extSet_map_self m k v h]
  · rw [if_neg h]
    unfold extLookup
    rw [find?_append_single_self m k v (by rwa [Bool.not_eq_true] at h)]

/-- Setting a key in an extensions map leaves every other key's lookup
unchanged. -/
theorem extLookup_extSet_ne (m : List (String × String)) (k v q : String)
    (hqk : q ≠ k) :
    extLookup (extSet m k v) q = extLookup m q := by
  unfold extSet
  by_cases h : m.any (fun p => p.1 == k) = true
  · rw [if_pos h]
    unfold extLookup
    rw [find?_extSet_map_ne m k v q hqk]
  · rw [if_neg h]
    unfold extLookup
    rw [find?_append_single_ne m k v q hqk]

/-- C3: `setDependentLifecycle` keeps the project name and the service
count; a service whose dependency list contains the given name keeps all
its other fields, gets its lifecycle annotation set (or overwritten) to
the strategy, and keeps every other extension key; a service whose
dependency list does not contain the name is left entirely unchanged. -/
theorem setDependentLifecycle_marks_exactly_dependents (project : Project)
    (serviceName strategy : String) :
    (setDependentLifecycle project serviceName strategy).name = project.name ∧
    (setDependentLifecycle project serviceName strategy).services.length
      = project.services.length ∧
    ∀ i (hi : i < project.services.length)
      (hi2 : i < (setDependentLifecycle project serviceName strategy).services.length),
      (slcontains (project.services[i]).dependencies serviceName = false →
        (setDependentLifecycle project serviceName strategy).services[i]
          = project.services[i]) ∧
      (slcontains (project.services[i]).dependencies serviceName = true →
        ((setDependentLifecycle project serviceName strategy).services[i]).name
          = (project.services[i]).name ∧
        ((setDependentLifecycle project serviceName strategy).services[i]).scale
          = (project.services[i]).scale ∧
        ((setDependentLifecycle project serviceName strategy).services[i]).deploy
          = (project.services[i]).deploy ∧
        ((setDependentLifecycle project serviceName strategy).services[i]).dependencies
          = (project.services[i]).dependencies ∧
        ((setDependentLifecycle project serviceName strategy).services[i]).networks
          = (project.services[i]).networks ∧
        extLookup (((setDependentLifecycle project serviceName strategy).services[i]).extensions)
          extLifecycle = some strategy ∧
        ∀ k, k ≠ extLifecycle →
          extLookup (((setDependentLifecycle project serviceName strategy).services[i]).extensions) k
            = extLookup ((project.services[i]).extensions) k) := by
  refine ⟨rfl, by simp [setDependentLifecycle], ?_⟩
  intro i hi hi2
  have hget : (setDependentLifecycle project serviceName strategy).services[i]
      = if slcontains (project.services[i]).dependencies serviceName then
          { project.services[i] with
            extensions := extSet (project.services[i]).extensions extLifecycle strategy }
        else project.services[i] := by
    show (project.services.map _)[i] = _
    rw [List.getElem_map]
  constructor
  · intro hno
    rw [hget, if_neg (by simp [hno])]
  · intro hyes
    rw [hget, if_pos hyes]
    exact ⟨rfl, rfl, rfl, rfl, rfl, extLookup_extSet_self _ _ _,
      fun k hk => extLookup_extSet_ne _ _ _ _ hk⟩

/-- Witness for C3: in a project where `b` depends on `a` and `d` does
not, propagating to dependents of `a` marks `b` and leaves `d`
untouched. -/
theorem setDependentLifecycle_marks_exactly_dependents_witness :
    extLookup (((setDependentLifecycle fixProjBD "a" forceRecreate).services.get
        ⟨0, by decide⟩).extensions) extLifecycle = some forceRecreate ∧
    (setDependentLifecycle fixProjBD "a" forceRecreate).services.get ⟨1, by decide⟩
      = fixSvcD := by
  have h := setDependentLifecycle_marks_exactly_dependents fixProjBD "a" forceRecreate
  constructor
  · have h0 := ((h.2.2 0 (by decide) (by decide)).2 (by decide)).2.2.2.2.2.1
    simpa [List.get_eq_getElem] using h0
  · have h1 := (h.2.2 1 (by decide) (by decide)).1 (by decide)
    have hd : fixProjBD.services[1] = fixSvcD := rfl
    simpa [List.get_eq_getElem, hd] using h1

/-- The loop of `nextContainerNumber` computes one more than the
max-fold of the parsed labels when every label parses. -/
theorem nextContainerNumberAux_ok (cs : List Container) :
    ∀ m : Int, (∀ c ∈ cs, ∃ n : Int, goAtoi (labelOf c containerNumberLabel) = .ok n) →
      nextContainerNumberAux m cs
        = .ok ((cs.foldl (fun acc c => max acc (parsedNumber c)) m) + 1) := by
  induction cs with
  | nil => intro m _; rfl
  | cons c rest ih =>
    intro m h
    obtain ⟨n, hn⟩ := h c (List.mem_cons_self c rest)
    have hpn : parsedNumber c = n := by simp [parsedNumber, hn]
    have hmax : (if n > m then n else m) = max m (parsedNumber c) := by
      rw [hpn]
      by_cases hlt : n > m
      · rw [if_pos hlt, max_eq_right hlt.le]
      · rw [if_neg hlt, max_eq_left (not_lt.mp hlt)]
    simp only [nextContainerNumberAux, hn]
    rw [hmax, List.foldl_cons]
    exact ih _ (fun d hd => h d (List.mem_cons_of_mem c hd))

/-- The starting value never exceeds a max-fold. -/
theorem init_le_foldl_max (cs : List Container) :
    ∀ a : Int, a ≤ cs.foldl (fun acc x => max acc (parsedNumber x)) a := by
  induction cs with
  | nil => intro a; exact le_refl a
  | cons d rest ih =>
    intro a
    rw [List.foldl_cons]
    exact le_trans (le_max_left _ _) (ih _)

/-- Every member's parsed number is bounded by the max-fold. -/
theorem le_foldl_max (cs : List Container) :
    ∀ (a : Int) (c : Container), c ∈ cs →
      parsedNumber c ≤ cs.foldl (fun acc x => max acc (parsedNumber x)) a := by
  induction cs with
  | nil => intro a c hc; cases hc
  | cons d rest ih =>
    intro a c hc
    rw [List.foldl_cons]
    rcases List.mem_cons.mp hc with rfl | hc
    · exact le_trans (le_max_right _ _) (init_le_foldl_max rest _)
    · exact ih _ c hc

/-- C6: when every instance-number label parses to a non-negative integer,
`nextContainerNumber` returns one greater than the maximum observed
number (each observed number is bounded by that maximum), it returns 1 on
the empty list, and a scale-up of `k` missing containers dispatches
creations carrying exactly the consecutive numbers `next, next+1, ...,
next+k-1` starting at that successor. -/
theorem nextContainerNumber_succ_of_max (hash : ServiceConfig → Except String String)
    (project : Project) (service : ServiceConfig) (cs : List Container)
    (hall : ∀ c ∈ cs, ∃ n : Int, 0 ≤ n ∧
      goAtoi (labelOf c containerNumberLabel) = .ok n) :
    nextContainerNumber cs = .ok (maxObserved cs + 1) ∧
    (∀ c ∈ cs, parsedNumber c ≤ maxObserved cs) ∧
    nextContainerNumber ([] : List Container) = .ok 1 ∧
    ((cs.length : Int) < getScale service →
      ∀ expected, hash service = .ok expected →
      ∃ rest, ensureServiceDispatch hash project service cs
        = .ok ((List.range (getScale service - (cs.length : Int)).toNat).map (fun i =>
            Dispatch.create
              (containerName project.name service.name (maxObserved cs + 1 + i))
              (maxObserved cs + 1 + i)) ++ rest)) := by
  have hall' : ∀ c ∈ cs, ∃ n : Int, goAtoi (labelOf c containerNumberLabel) = .ok n :=
    fun c hc => ⟨(hall c hc).choose, (hall c hc).choose_spec.2⟩
  have h1 : nextContainerNumber cs = .ok (maxObserved cs + 1) :=
    nextContainerNumberAux_ok cs 0 hall'
  refine ⟨h1, fun c hc => le_foldl_max cs 0 c hc, rfl, ?_⟩
  intro hlt expected hexp
  have hnlt : ¬ (getScale service < (cs.length : Int)) := not_lt.mpr hlt.le
  refine ⟨driftOps service expected cs, ?_⟩
  simp only [ensureServiceDispatch, hlt, if_true, h1, hexp, hnlt, if_false]
  simp

/-- Witness for C6: numbers 2 and 5 observed, so the next number is 6 and
a scale-3 service creates the single missing container as number 6. -/
theorem nextContainerNumber_succ_of_max_witness :
    nextContainerNumber [fixC "a" "2", fixC "b" "5"] = .ok 6 ∧
    (∃ rest, ensureServiceDispatch (fun _ => .ok "H") fixProj fixSvc3
        [fixC "a" "2", fixC "b" "5"]
      = .ok ([Dispatch.create (containerName "p" "web" 6) 6] ++ rest)) := by
  have hall : ∀ c ∈ [fixC "a" "2", fixC "b" "5"], ∃ n : Int, 0 ≤ n ∧
      goAtoi (labelOf c containerNumberLabel) = .ok n := by
    intro c hc
    rcases List.mem_cons.mp hc with rfl | hc
    · exact ⟨2, by decide, rfl⟩
    rcases List.mem_cons.mp hc with rfl | hc
    · exact ⟨5, by decide, rfl⟩
    cases hc
  have h := nextContainerNumber_succ_of_max (fun _ => .ok "H") fixProj fixSvc3
    [fixC "a" "2", fixC "b" "5"] hall
  have hm : maxObserved [fixC "a" "2", fixC "b" "5"] = 5 := rfl
  constructor
  · have h1 := h.1
    rw [hm] at h1
    exact h1
  · obtain ⟨rest, hr⟩ := h.2.2.2 (by decide) "H" rfl
    exact ⟨rest, by rw [hr]; rfl⟩

/-- C7: when the actual count exceeds the desired scale, the dispatch is
exactly one stop-then-delete task per container of the listing's tail
beyond position `scale` (in listing order), followed by the drift pass
restricted to the surviving prefix of length `scale`. -/
theorem ensureService_scale_down_tail (hash : ServiceConfig → Except String String)
    (project : Project) (service : ServiceConfig) (actual : List Container)
    (expected : String)
    (_h0 : 0 ≤ getScale service)
    (hgt : getScale service < (actual.length : Int))
    (hh : hash service = .ok expected) :
    ensureServiceDispatch hash project service actual
      = .ok ((actual.drop (getScale service).toNat).map Dispatch.stopDelete
          ++ driftOps service expected (actual.take (getScale service).toNat)) := by
  have hnlt : ¬ ((actual.length : Int) < getScale service) := not_lt.mpr hgt.le
  simp only [ensureServiceDispatch, hnlt, if_false, hgt, if_true, hh]
  simp

/-- Witness for C7: scale 1 against two listed containers stops and
deletes exactly the second (the tail) and keeps the first. -/
theorem ensureService_scale_down_tail_witness :
    ensureServiceDispatch (fun _ => .ok "H") fixProj fixSvc
        [fixC "a" "1", fixC "b" "2"]
      = .ok [Dispatch.stopDelete (fixC "b" "2")] := by
  have h := ensureService_scale_down_tail (fun _ => .ok "H") fixProj fixSvc
    [fixC "a" "1", fixC "b" "2"] "H" (by decide) (by decide) rfl
  rw [h]
  rfl

/-- The drift pass dispatches nothing when every surviving container
carries the expected fingerprint, the service is not annotated for forced
recreation, and every surviving container is running. -/
theorem driftOps_nil_of_clean (service : ServiceConfig) (expected : String) :
    ∀ l : List Container,
      (∀ c ∈ l, labelOf c configHashLabel = expected) →
      ¬ extLookup service.extensions extLifecycle = some forceRecreate →
      (∀ c ∈ l, c.state = "running") →
      driftOps service expected l = []
  | [], _, _, _ => rfl
  | c :: rest, hfp, hext, hrun => by
    have hcond : ¬ (labelOf c configHashLabel ≠ expected
        ∨ extLookup service.extensions extLifecycle = some forceRecreate) := by
      rintro (hne | hfr)
      · exact hne (hfp c (List.mem_cons_self c rest))
      · exact hext hfr
    simp only [driftOps]
    rw [if_neg hcond, if_pos (hrun c (List.mem_cons_self c rest)), List.nil_append]
    exact driftOps_nil_of_clean service expected rest
      (fun d hd => hfp d (List.mem_cons_of_mem c hd)) hext
      (fun d hd => hrun d (List.mem_cons_of_mem c hd))

/-- C8: reconciling a service already at desired scale, with every
container carrying the current fingerprint, no force-recreate annotation
and every container running, dispatches no work item at all — no create,
stop, start, rename or delete reaches the runtime. -/
theorem ensureService_noop_when_converged (hash : ServiceConfig → Except String String)
    (project : Project) (service : ServiceConfig) (actual : List Container)
    (expected : String)
    (hh : hash service = .ok expected)
    (hlen : (actual.length : Int) = getScale service)
    (hfp : ∀ c ∈ actual, labelOf c configHashLabel = expected)
    (hext : ¬ extLookup service.extensions extLifecycle = some forceRecreate)
    (hrun : ∀ c ∈ actual, c.state = "running") :
    ensureServiceDispatch hash project service actual = .ok [] := by
  have h1 : ¬ ((actual.length : Int) < getScale service) := by
    rw [hlen]; exact lt_irrefl _
  have h2 : ¬ (getScale service < (actual.length : Int)) := by
    rw [hlen]; exact lt_irrefl _
  have hdrift : driftOps service expected actual = [] :=
    driftOps_nil_of_clean service expected actual hfp hext hrun
  simp only [ensureServiceDispatch, h1, if_false, h2, hh, hdrift]
  simp

/-- Witness for C8: one running, fingerprint-matching container at scale
1 yields an empty dispatch. -/
theorem ensureService_noop_when_converged_witness :
    ensureServiceDispatch (fun _ => .ok "H") fixProj fixSvc [fixC "a" "1"] = .ok [] :=
  ensureService_noop_when_converged (fun _ => .ok "H") fixProj fixSvc [fixC "a" "1"] "H"
    rfl (by decide) (by decide) (by decide) (by decide)

/-- A recreation of `c` is dispatched by the drift pass iff `c` is among
the scanned containers and its fingerprint label differs from the
expected hash or the service carries the force-recreate annotation. -/
theorem recreate_mem_driftOps (service : ServiceConfig) (expected : String)
    (c : Container) (l : List Container) :
    Dispatch.recreate c ∈ driftOps service expected l ↔
      c ∈ l ∧ (labelOf c configHashLabel ≠ expected
        ∨ extLookup service.extensions extLifecycle = some forceRecreate) := by
  induction l with
  | nil => simp [driftOps]
  | cons d rest ih =>
    simp only [driftOps, List.mem_append]
    by_cases hcond : labelOf d configHashLabel ≠ expected
        ∨ extLookup service.extensions extLifecycle = some forceRecreate
    · rw [if_pos hcond]
      simp only [List.mem_cons, List.not_mem_nil, or_false, Dispatch.recreate.injEq, ih]
      constructor
      · rintro (rfl | ⟨hm, hc⟩)
        · exact ⟨Or.inl rfl, hcond⟩
        · exact ⟨Or.inr hm, hc⟩
      · rintro ⟨rfl | hm, hc⟩
        · exact Or.inl rfl
        · exact Or.inr ⟨hm, hc⟩
    · rw [if_neg hcond]
      by_cases hst : d.state = "running"
      · rw [if_pos hst]
        simp only [List.not_mem_nil, false_or, ih, List.mem_cons]
        constructor
        · rintro ⟨hm, hc⟩
          exact ⟨Or.inr hm, hc⟩
        · rintro ⟨rfl | hm, hc⟩
          · exact absurd hc hcond
          · exact ⟨hm, hc⟩
      · rw [if_neg hst]
        simp only [List.mem_cons, List.not_mem_nil, or_false, ih]
        constructor
        · rintro (hfalse | ⟨hm, hc⟩)
          · exact absurd hfalse (by simp)
          · exact ⟨Or.inr hm, hc⟩
        · rintro ⟨rfl | hm, hc⟩
          · exact absurd hc hcond
          · exact Or.inr ⟨hm, hc⟩

/-- A restart of `c` is dispatched by the drift pass iff `c` is among the
scanned containers, is not selected for recreation, and is not
running. -/
theorem restart_mem_driftOps (service : ServiceConfig) (expected : String)
    (c : Container) (l : List Container) :
    Dispatch.restart c ∈ driftOps service expected l ↔
      c ∈ l ∧ ¬ (labelOf c configHashLabel ≠ expected
        ∨ extLookup service.extensions extLifecycle = some forceRecreate)
        ∧ c.state ≠ "running" := by
  induction l with
  | nil => simp [driftOps]
  | cons d rest ih =>
    simp only [driftOps, List.mem_append]
    by_cases hcond : labelOf d configHashLabel ≠ expected
        ∨ extLookup service.extensions extLifecycle = some forceRecreate
    · rw [if_pos hcond]
      simp only [List.mem_cons, List.not_mem_nil, or_false, ih]
      constructor
      · rintro (hfalse | ⟨hm, hc⟩)
        · exact absurd hfalse (by simp)
        · exact ⟨Or.inr hm, hc⟩
      · rintro ⟨rfl | hm, hnc, hst⟩
        · exact absurd hcond hnc
        · exact Or.inr ⟨hm, hnc, hst⟩
    · rw [if_neg hcond]
      by_cases hst : d.state = "running"
      · rw [if_pos hst]
        simp only [List.not_mem_nil, false_or, ih, List.mem_cons]
        constructor
        · rintro ⟨hm, hc⟩
          exact ⟨Or.inr hm, hc⟩
        · rintro ⟨rfl | hm, hnc, hs⟩
          · exact absurd hst hs
          · exact ⟨hm, hnc, hs⟩
      · rw [if_neg hst]
        simp only [List.mem_cons, List.not_mem_nil, or_false, Dispatch.restart.injEq, ih]
        constructor
        · rintro (rfl | ⟨hm, hc⟩)
          · exact ⟨Or.inl rfl, hcond, hst⟩
          · exact ⟨Or.inr hm, hc⟩
        · rintro ⟨rfl | hm, hnc, hs⟩
          · exact Or.inl rfl
          · exact Or.inr ⟨hm, hnc, hs⟩

/-- C2: in the drift/restart pass over the surviving actual containers,
the reconciler's dispatch always embeds the drift pass over the survivors
(whatever scaling happened first), and a survivor is recreated iff its
stored fingerprint differs from the fresh hash or the service carries the
force-recreate annotation; a survivor not selected for recreation is
restarted iff it is not running, and contributes no work item iff it is
running. -/
theorem drift_pass_decision (hash : ServiceConfig → Except String String)
    (project : Project) (service : ServiceConfig) (actual : List Container)
    (expected : String) (c : Container)
    (_h0 : 0 ≤ getScale service)
    (hnum : (actual.length : Int) < getScale service →
      ∃ n, nextContainerNumber actual = .ok n)
    (hh : hash service = .ok expected) :
    (∃ pre, ensureServiceDispatch hash project service actual
      = .ok (pre ++ driftOps service expected (survivingActual service actual))) ∧
    (Dispatch.recreate c ∈ driftOps service expected (survivingActual service actual) ↔
      c ∈ survivingActual service actual ∧
        (labelOf c configHashLabel ≠ expected
          ∨ extLookup service.extensions extLifecycle = some forceRecreate)) ∧
    (Dispatch.restart c ∈ driftOps service expected (survivingActual service actual) ↔
      c ∈ survivingActual service actual ∧
        ¬ (labelOf c configHashLabel ≠ expected
          ∨ extLookup service.extensions extLifecycle = some forceRecreate)
        ∧ c.state ≠ "running") ∧
    (driftOps service expected [c] = [] ↔
      labelOf c configHashLabel = expected
        ∧ ¬ extLookup service.extensions extLifecycle = some forceRecreate
        ∧ c.state = "running") := by
  refine ⟨?_, recreate_mem_driftOps service expected c _,
    restart_mem_driftOps service expected c _, ?_⟩
  · rcases lt_trichotomy ((actual.length : Int)) (getScale service) with hlt | heq | hgt
    · obtain ⟨n, hn⟩ := hnum hlt
      have hnlt : ¬ (getScale service < (actual.length : Int)) := not_lt.mpr hlt.le
      have hsurv : survivingActual service actual = actual := by
        unfold survivingActual
        rw [if_neg hnlt]
      refine ⟨(List.range ((getScale service - (actual.length : Int)).toNat)).map (fun i =>
        Dispatch.create (containerName project.name service.name (n + i)) (n + i)), ?_⟩
      simp only [ensureServiceDispatch, hlt, if_true, hn, hh, hnlt, if_false, hsurv]
      simp
    · have h1 : ¬ ((actual.length : Int) < getScale service) := by
        rw [heq]; exact lt_irrefl _
      have h2 : ¬ (getScale service < (actual.length : Int)) := by
        rw [heq]; exact lt_irrefl _
      have hsurv : survivingActual service actual = actual := by
        unfold survivingActual
        rw [if_neg h2]
      refine ⟨[], ?_⟩
      simp only [ensureServiceDispatch, h1, if_false, h2, hh, hsurv]
      simp
    · have h1 : ¬ ((actual.length : Int) < getScale service) := not_lt.mpr hgt.le
      have hsurv : survivingActual service actual
          = actual.take (getScale service).toNat := by
        unfold survivingActual
        rw [if_pos hgt]
      refine ⟨(actual.drop (getScale service).toNat).map Dispatch.stopDelete, ?_⟩
      simp only [ensureServiceDispatch, h1, if_false, hgt, if_true, hh, hsurv]
      simp
  · simp only [driftOps, List.append_nil]
    by_cases hcond : labelOf c configHashLabel ≠ expected
        ∨ extLookup service.extensions extLifecycle = some forceRecreate
    · rw [if_pos hcond]
      constructor
      · intro hfalse
        exact absurd hfalse (by simp)
      · rintro ⟨hfp, hnf, _⟩
        rcases hcond with hne | hfr
        · exact absurd hfp hne
        · exact absurd hfr hnf
    · rw [if_neg hcond]
      push_neg at hcond
      by_cases hst : c.state = "running"
      · rw [if_pos hst]
        exact iff_of_true rfl ⟨hcond.1, hcond.2, hst⟩
      · rw [if_neg hst]
        constructor
        · intro hfalse
          exact absurd hfalse (by simp)
        · rintro ⟨_, _, hs⟩
          exact absurd hs hst

/-- Witness for C2: a running container with a stale fingerprint label is
selected for recreation, and the reconciler's dispatch embeds the drift
pass over the survivors. -/
theorem drift_pass_decision_witness :
    Dispatch.recreate fixCStale
      ∈ driftOps fixSvc "H" (survivingActual fixSvc [fixCStale]) ∧
    (∃ pre, ensureServiceDispatch (fun _ => .ok "H") fixProj fixSvc [fixCStale]
      = .ok (pre ++ driftOps fixSvc "H" (survivingActual fixSvc [fixCStale]))) := by
  have h := drift_pass_decision (fun _ => .ok "H") fixProj fixSvc [fixCStale] "H"
    fixCStale (by decide) (fun hlt => absurd hlt (by decide)) rfl
  refine ⟨?_, h.1⟩
  exact (h.2.1).mpr ⟨by decide, Or.inl (by decide)⟩

/-- The network-connection loop issues only connect calls, never a
delete. -/
theorem delete_not_mem_connectNetworks (env : Env) (pn sn id x : String) :
    ∀ nets : List String, RuntimeOp.delete x ∉ (connectNetworks env pn sn id nets).1 := by
  intro nets
  induction nets with
  | nil => simp [connectNetworks]
  | cons net rest ih =>
    simp only [connectNetworks]
    cases hc : env.connectRes net with
    | error e => simp
    | ok u => simp [ih]

/-- A replacement run (create, connect, start) never issues a delete
call. -/
theorem delete_not_mem_runContainer (env : Env) (project : Project)
    (service : ServiceConfig) (name x : String) :
    RuntimeOp.delete x ∉ (runContainer env project service name).1 := by
  unfold runContainer
  cases ho : env.optsRes with
  | error e => simp
  | ok u =>
    cases hc : env.createRes with
    | error e => simp
    | ok id =>
      cases hcn : (connectNetworks env project.name service.name id service.networks).2 with
      | error e => simp [hcn, delete_not_mem_connectNetworks]
      | ok u2 =>
        cases hs : env.startRes with
        | error e => simp [hcn, hs, delete_not_mem_connectNetworks]
        | ok u3 => simp [hcn, hs, delete_not_mem_connectNetworks]

/-- C1: under a recreation whose stop and rename calls succeed and whose
instance-number label parses, a successful replacement run and delete
produce exactly the trace stop, rename, create-and-start-new, delete-old
in that strict order; and if the replacement run (create-and-start) fails,
the recreation returns that error with a trace that never contains a
delete of the old container — the old, renamed container still exists. -/
theorem recreateContainer_strict_order (env : Env) (project : Project)
    (service : ServiceConfig) (c : Container)
    (h12 : 12 ≤ c.ID.length)
    (hstop : env.stopRes = .ok ())
    (hren : env.renameRes = .ok ())
    (n : Int) (hnum : goAtoi (labelOf c containerNumberLabel) = .ok n) :
    (∀ id, (runContainer env project service (getContainerName c)).2 = .ok id →
      env.deleteRes = .ok () →
      recreateContainer env project service c
        = (RuntimeOp.stop c.ID
            :: RuntimeOp.rename c.ID ((tmpNameOf c).getD "")
            :: ((runContainer env project service (getContainerName c)).1
              ++ [RuntimeOp.delete c.ID]), Outcome.ok)) ∧
    (∀ e, (runContainer env project service (getContainerName c)).2 = .error e →
      recreateContainer env project service c
        = (RuntimeOp.stop c.ID
            :: RuntimeOp.rename c.ID ((tmpNameOf c).getD "")
            :: (runContainer env project service (getContainerName c)).1, Outcome.err e) ∧
      RuntimeOp.delete c.ID ∉ (recreateContainer env project service c).1) := by
  obtain ⟨t, ht⟩ : ∃ t, tmpNameOf c = some t := by
    have h' : 12 ≤ c.ID.data.length := h12
    unfold tmpNameOf goSliceTo
    rw [if_pos h']
    exact ⟨_, rfl⟩
  have hgd : (tmpNameOf c).getD "" = t := by rw [ht]; rfl
  constructor
  · intro id hid hdel
    rw [hgd]
    simp [recreateContainer, hstop, hren, ht, hnum, hid, hdel]
  · intro e he
    have heq : recreateContainer env project service c
        = (RuntimeOp.stop c.ID :: RuntimeOp.rename c.ID t
            :: (runContainer env project service (getContainerName c)).1,
           Outcome.err e) := by
      simp [recreateContainer, hstop, hren, ht, hnum, he]
    refine ⟨by rw [hgd]; exact heq, ?_⟩
    rw [heq]
    simp only [List.mem_cons]
    rintro (hfalse | hfalse | hmem)
    · exact absurd hfalse (by simp)
    · exact absurd hfalse (by simp)
    · exact delete_not_mem_runContainer env project service (getContainerName c) c.ID hmem

/-- Witness for C1: with a failing create call, the recreation returns
the create error after stop, rename and the attempted create, and never
deletes the old container. -/
theorem recreateContainer_strict_order_witness :
    recreateContainer fixEnvCreateFail fixProj fixSvc (fixC "aaaaaaaaaaaa" "1")
      = ([RuntimeOp.stop "aaaaaaaaaaaa",
          RuntimeOp.rename "aaaaaaaaaaaa" "aaaaaaaaaaaa_nm",
          RuntimeOp.create "nm"], Outcome.err "boom") ∧
    RuntimeOp.delete "aaaaaaaaaaaa"
      ∉ (recreateContainer fixEnvCreateFail fixProj fixSvc (fixC "aaaaaaaaaaaa" "1")).1 := by
  have h := (recreateContainer_strict_order fixEnvCreateFail fixProj fixSvc
    (fixC "aaaaaaaaaaaa" "1") (by decide) rfl rfl 1 rfl).2 "boom" rfl
  obtain ⟨heq, hnm⟩ := h
  constructor
  · rw [heq]
    rfl
  · exact hnm

end Convergence
